import Mathlib

/-!
Shallow embedding of `discretize/CylMesh.py` (class `CylMesh`) over exact
rational arithmetic.  Machine floats of the source are modelled by `ℚ`; the
constant `scipy.constants.pi` is modelled by an explicit parameter `pi : ℚ`
(none of the verified statements uses any analytic property of π beyond the
field axioms and positivity).  Sparse `scipy.sparse` matrices are modelled by
`Matrix` over the exact index types their constructors produce:
`sp.kron A B` becomes `A ⊗ₖ B` on a product index type (the same data as the
flat row-major layout, via `finProdFinEquiv`), `sp.hstack`/`sp.vstack` become
`Matrix.fromColumns`/`Matrix.fromRows` on sum index types, and
`utils.sdiag v` becomes `Matrix.diagonal v`.

The helpers `utils.ddx`, `utils.av`, `utils.speye`, `utils.kron3`,
`utils.sdiag`, `utils.spzeros` and `utils.interpmat` live in
`discretize/utils` which is not part of the provided sources; they are
modelled from the spec (§4.3 "1-D first-difference (forward difference …)",
§4.4 "1-D two-point averaging stencil", standard meanings of the rest).
-/

open Matrix
open Kronecker

/-- Modelled from the spec (§4.3): `utils.ddx(n)`, the n × (n+1) forward
first-difference matrix with stencil `[-1, 1]`. -/
def ddx (n : ℕ) : Matrix (Fin n) (Fin (n + 1)) ℚ :=
  fun i j => if (j : ℕ) = (i : ℕ) then -1 else if (j : ℕ) = (i : ℕ) + 1 then 1 else 0

/-- Modelled from the spec (§4.4): `utils.av(n)`, the n × (n+1) two-point
averaging matrix with stencil `[1/2, 1/2]`. -/
def av (n : ℕ) : Matrix (Fin n) (Fin (n + 1)) ℚ :=
  fun i j => if (j : ℕ) = (i : ℕ) ∨ (j : ℕ) = (i : ℕ) + 1 then 1/2 else 0

/-- `avR` of `CylMesh.aveE2CC`/`aveF2CC`/`aveF2CCV`: `utils.av(n)[:, 1:]` with
the entry `[0, 0]` overwritten to `1` (innermost radial weight pinned to 1). -/
def avR (n : ℕ) : Matrix (Fin n) (Fin n) ℚ :=
  fun i j => if (i : ℕ) = 0 ∧ (j : ℕ) = 0 then 1 else av n i j.succ

/-- `collapse_x` of `CylMesh._deflationMatrix`: the (n+1) × n matrix with a 1
at `(i+1, i)` for each `i` (row 0, the axis ring slot, is zero). -/
def collapse_x (n : ℕ) : Matrix (Fin (n + 1)) (Fin n) ℚ :=
  fun i j => if (i : ℕ) = (j : ℕ) + 1 then 1 else 0

/-- `wrap_theta` of `CylMesh._deflationMatrix`: the (n+1) × n matrix sending
row `i < n` to column `i` and the seam row `n` back to column 0. -/
def wrap_theta (n : ℕ) : Matrix (Fin (n + 1)) (Fin n) ℚ :=
  fun i j => if (j : ℕ) = (i : ℕ) ∨ ((i : ℕ) = n ∧ (j : ℕ) = 0) then 1 else 0

/-- `ddxz` of `CylMesh.edgeCurl` (full mode): `utils.ddx(n)[:, :-1]` plus a
single 1 at `(n-1, 0)` — the cyclic azimuthal difference with wraparound. -/
def ddxz (n : ℕ) : Matrix (Fin n) (Fin n) ℚ :=
  (ddx n).submatrix id Fin.castSucc +
    Matrix.of (fun (i j : Fin n) => if (i : ℕ) = n - 1 ∧ (j : ℕ) = 0 then 1 else 0)

/-- `ddxt` of `CylMesh.edgeCurl` (full mode): `utils.ddx(n)[:, 1:]`, the
radial difference with the axis column dropped. -/
def ddxt (n : ℕ) : Matrix (Fin n) (Fin n) ℚ :=
  (ddx n).submatrix id Fin.succ

/-- `dr` of `CylMesh.edgeCurl` (symmetric mode):
`sp.spdiags([-1, 1], [-1, 0], nCx, nCx)`. -/
def drSym (n : ℕ) : Matrix (Fin n) (Fin n) ℚ :=
  fun i j => if (i : ℕ) = (j : ℕ) then 1 else if (i : ℕ) = (j : ℕ) + 1 then -1 else 0

/-- `wrap_z` of `CylMesh.edgeCurl` (full mode): the (nCy·nCx) × 1 column with
a -1 in each row whose radial index is 0 (rows `np.arange(0, nCy*nCx, nCx)`). -/
def wrap_z (nt nr : ℕ) : Matrix (Fin nt × Fin nr) (Fin 1) ℚ :=
  fun p _ => if (p.2 : ℕ) = 0 then -1 else 0

/-- Cumulative sum of the first `k` entries of a width array `h` of length
`n` (the `.cumsum()` of numpy, read at position `k - 1`, with `cumsum h 0 = 0`). -/
def cumsum {n : ℕ} (h : Fin n → ℚ) (k : ℕ) : ℚ :=
  ∑ j ∈ Finset.range k, if hb : j < n then h ⟨j, hb⟩ else 0

/-- `CylMesh.isSymmetric`: true iff the azimuthal axis has exactly one cell. -/
def isSymmetric (nt : ℕ) : Bool := nt == 1

/-- `CylMesh.nNx`: number of radial nodes (`nCx` in symmetric mode, else `nCx + 1`). -/
def nNx (nr nt : ℕ) : ℕ := if isSymmetric nt then nr else nr + 1

/-- `CylMesh.nNy`: number of azimuthal nodes (0 in symmetric mode, else `nCy`). -/
def nNy (nt : ℕ) : ℕ := if isSymmetric nt then 0 else nt

/-- `BaseTensorMesh.nC = vnC.prod()`: total cell count (modelled from the
spec §2, counts are products of per-axis cell counts). -/
def nC (nr nt nz : ℕ) : ℕ := nr * nt * nz

/-- `CylMesh.nEz`: z-edge count; `vnEz.prod()` in symmetric mode (where
`nNy = 0`), else `(nNx-1)·nNy·nCz + nCz`. -/
def nEz (nr nt nz : ℕ) : ℕ :=
  if isSymmetric nt then nNx nr nt * nNy nt * nz else (nNx nr nt - 1) * nNy nt * nz + nz

/-- `CylMesh.nFx = vnFx.prod() = vnC.prod()`: radial-face count. -/
def nFx (nr nt nz : ℕ) : ℕ := nr * nt * nz

/-- Row index type of the combined cell-centred operators in full 3-D mode:
`vnC`-shaped, z-major (the row-major flattening order of `utils.kron3`). -/
@[reducible] def CellIdx (nr nt nz : ℕ) : Type := Fin nz × Fin nt × Fin nr

example : ddx 2 = Matrix.of ![![-1, 1, 0], ![0, -1, 1]] := by
  ext i j; fin_cases i <;> fin_cases j <;> simp [ddx]

example : wrap_theta 2 = Matrix.of ![![1, 0], ![0, 1], ![1, 0]] := by
  ext i j; fin_cases i <;> fin_cases j <;> simp [wrap_theta]

example : ddxz 3 = Matrix.of ![![-1, 1, 0], ![0, -1, 1], ![1, 0, -1]] := by
  ext i j
  fin_cases i <;> fin_cases j <;>
    simp [ddxz, ddx, Matrix.submatrix_apply, Fin.castSucc, Fin.castAdd, Fin.castLE]

example : cumsum (fun _ : Fin 3 => (2 : ℚ)) 2 = 4 := by
  norm_num [cumsum, Finset.sum_range_succ]

/-- Modelled from the spec: `utils.speye(n)`, the sparse identity. -/
def speye (n : ℕ) : Matrix (Fin n) (Fin n) ℚ := 1

/-- Modelled from the spec: `utils.kron3(A, B, C) = sp.kron(A, sp.kron(B, C))`. -/
def kron3 {l m n p q r : Type} (A : Matrix l p ℚ) (B : Matrix m q ℚ) (C : Matrix n r ℚ) :
    Matrix (l × m × n) (p × q × r) ℚ :=
  A ⊗ₖ (B ⊗ₖ C)

/-! ### Grid geometry (`CylMesh.vectorNx`, `area`, `vol`, `edge`)

Index types mirror the row-major (z-outer, radial-inner) flattening of the
`np.kron`/`utils.kron3` constructions in the source. -/

/-- `CylMesh.vectorNx` in full mode: `np.r_[0, hx].cumsum()`. -/
def vectorNxF {nr : ℕ} (hx : Fin nr → ℚ) (i : Fin (nr + 1)) : ℚ := cumsum hx i

/-- `CylMesh.vectorNx` in symmetric mode: `hx.cumsum()` (no node at the axis). -/
def vectorNxS {nr : ℕ} (hx : Fin nr → ℚ) (i : Fin nr) : ℚ := cumsum hx ((i : ℕ) + 1)

/-- Full-mode radial face areas: `np.kron(hz, np.kron(hy, vectorNx[1:]))`. -/
def areaFxF {nr nt nz : ℕ} (hx : Fin nr → ℚ) (hy : Fin nt → ℚ) (hz : Fin nz → ℚ)
    (c : CellIdx nr nt nz) : ℚ :=
  hz c.1 * (hy c.2.1 * vectorNxF hx c.2.2.succ)

/-- Full-mode azimuthal face areas: `np.kron(hz, np.kron(np.ones(nNy), hx))`. -/
def areaFyF {nr nt nz : ℕ} (hx : Fin nr → ℚ) (hz : Fin nz → ℚ)
    (c : CellIdx nr nt nz) : ℚ :=
  hz c.1 * hx c.2.2

/-- Full-mode axial face areas:
`np.kron(np.ones(nNz), np.kron(hy, 0.5*(vectorNx[1:]**2 - vectorNx[:-1]**2)))`. -/
def areaFzF {nr nt : ℕ} (hx : Fin nr → ℚ) (hy : Fin nt → ℚ) {nz : ℕ}
    (c : Fin (nz + 1) × Fin nt × Fin nr) : ℚ :=
  hy c.2.1 * (1/2 * (vectorNxF hx c.2.2.succ ^ 2 - vectorNxF hx c.2.2.castSucc ^ 2))

/-- Full-mode cell volumes:
`np.kron(hz, np.kron(hy, 0.5*(vectorNx[1:]**2 - vectorNx[:-1]**2)))`. -/
def volF {nr nt nz : ℕ} (hx : Fin nr → ℚ) (hy : Fin nt → ℚ) (hz : Fin nz → ℚ)
    (c : CellIdx nr nt nz) : ℚ :=
  hz c.1 * (hy c.2.1 * (1/2 * (vectorNxF hx c.2.2.succ ^ 2 - vectorNxF hx c.2.2.castSucc ^ 2)))

/-- Full-mode radial edge lengths: `np.kron(ones(nNz), np.kron(ones(nCy), hx))`. -/
def edgeExF {nr nt nz : ℕ} (hx : Fin nr → ℚ) (c : Fin (nz + 1) × Fin nt × Fin nr) : ℚ :=
  hx c.2.2

/-- Full-mode azimuthal edge lengths: `np.kron(ones(nNz), np.kron(hy, vectorNx[1:]))`. -/
def edgeEyF {nr nt nz : ℕ} (hx : Fin nr → ℚ) (hy : Fin nt → ℚ)
    (c : Fin (nz + 1) × Fin nt × Fin nr) : ℚ :=
  hy c.2.1 * vectorNxF hx c.2.2.succ

/-- Full-mode axial edge lengths: `np.kron(hz, ones(nCy*nCx + 1))`; the axial
edge family carries one extra seam edge per layer (the leading `Fin 1`). -/
def edgeEzF {nr nt nz : ℕ} (hz : Fin nz → ℚ)
    (c : Fin nz × (Fin 1 ⊕ Fin nt × Fin nr)) : ℚ :=
  hz c.1

/-- Symmetric-mode radial face areas: `np.kron(hz, 2*pi*vectorNx)`. -/
def areaFxS {nr nz : ℕ} (pi : ℚ) (hx : Fin nr → ℚ) (hz : Fin nz → ℚ)
    (c : Fin nz × Fin nr) : ℚ :=
  hz c.1 * (2 * pi * vectorNxS hx c.2)

/-- Symmetric-mode axial face areas:
`np.kron(ones_like(vectorNz), pi*(vectorNx**2 - np.r_[0, vectorNx[:-1]]**2))`. -/
def areaFzS {nr nz : ℕ} (pi : ℚ) (hx : Fin nr → ℚ)
    (c : Fin (nz + 1) × Fin nr) : ℚ :=
  pi * (vectorNxS hx c.2 ^ 2 - cumsum hx (c.2 : ℕ) ^ 2)

/-- Symmetric-mode cell volumes: `np.kron(hz, pi*(vectorNx**2 - np.r_[0, vectorNx[:-1]]**2))`. -/
def volS {nr nz : ℕ} (pi : ℚ) (hx : Fin nr → ℚ) (hz : Fin nz → ℚ)
    (c : Fin nz × Fin nr) : ℚ :=
  hz c.1 * (pi * (vectorNxS hx c.2 ^ 2 - cumsum hx (c.2 : ℕ) ^ 2))

/-- Symmetric-mode edge lengths: `2*pi*gridN[:, 0]` (arc length at each node
radius; modelled from the spec §4.1 with the node grid z-major, radius-fast). -/
def edgeS {nr nz : ℕ} (pi : ℚ) (hx : Fin nr → ℚ) (c : Fin (nz + 1) × Fin nr) : ℚ :=
  2 * pi * vectorNxS hx c.2

/-! ### Deflation matrices (`CylMesh._deflationMatrix`) -/

/-- Deflation for radial faces: `utils.kron3(speye(nCz), speye(nCy), collapse_x)`,
mapping the reduced radial-face DOFs into the ungapped tensor product. -/
def deflFx (nr nt nz : ℕ) :
    Matrix (Fin nz × Fin nt × Fin (nr + 1)) (Fin nz × Fin nt × Fin nr) ℚ :=
  kron3 (speye nz) (speye nt) (collapse_x nr)

/-- Deflation for azimuthal faces: `utils.kron3(speye(nCz), wrap_theta, speye(nCx))`. -/
def deflFy (nr nt nz : ℕ) :
    Matrix (Fin nz × Fin (nt + 1) × Fin nr) (Fin nz × Fin nt × Fin nr) ℚ :=
  kron3 (speye nz) (wrap_theta nt) (speye nr)

/-- The boolean keep-mask of the `'Ez'` branch of `_deflationMatrix`: entry
`k` of the per-layer node-pair tensor product survives unless it lies in
`np.arange(nNx, nNx*nNy, step=nNx)` (a positive multiple of `nNx`). -/
def keepEzSet (nr nt : ℕ) : Finset (Fin (nNx nr nt * nNy nt)) :=
  Finset.univ.filter (fun k => ¬((k : ℕ) % nNx nr nt = 0 ∧ nNx nr nt ≤ (k : ℕ)))

/-- Number of surviving rows of the per-layer `'Ez'` selection. -/
def nKeepEz (nr nt : ℕ) : ℕ := (keepEzSet nr nt).card

/-- The per-layer `'Ez'` row selection `sp.eye(...)[keepme, :]`: the surviving
rows of the identity, in increasing index order. -/
def selEz (nr nt : ℕ) : Matrix (Fin (nKeepEz nr nt)) (Fin (nNx nr nt * nNy nt)) ℚ :=
  fun r c => if c = (keepEzSet nr nt).orderEmbOfFin rfl r then 1 else 0

/-- Deflation for axial edges: `sp.kron(speye(nCz), eye[keepme, :])`. -/
def deflEz (nr nt nz : ℕ) :
    Matrix (Fin nz × Fin (nKeepEz nr nt)) (Fin nz × Fin (nNx nr nt * nNy nt)) ℚ :=
  speye nz ⊗ₖ selEz nr nt

/-- Row-major flattening equivalence for triple products (the layout of
`utils.kron3`). -/
def flat3 {a b c : ℕ} : (Fin a × Fin b × Fin c) ≃ Fin (a * (b * c)) :=
  (Equiv.prodCongr (Equiv.refl (Fin a)) finProdFinEquiv).trans finProdFinEquiv

/-- Flatten a triple-product-indexed matrix to the numpy row-major layout. -/
def flatten3 {a b c d e f : ℕ} (M : Matrix (Fin a × Fin b × Fin c) (Fin d × Fin e × Fin f) ℚ) :
    Matrix (Fin (a * (b * c))) (Fin (d * (e * f))) ℚ :=
  Matrix.reindex flat3 flat3 M

/-- Flatten a pair-product-indexed matrix to the numpy row-major layout. -/
def flatten2 {a b d e : ℕ} (M : Matrix (Fin a × Fin b) (Fin d × Fin e) ℚ) :
    Matrix (Fin (a * b)) (Fin (d * e)) ℚ :=
  Matrix.reindex finProdFinEquiv finProdFinEquiv M

/-- `CylMesh._deflationMatrix(location)`: asserts the tag is recognized for a
3-D mesh (`dim == 3` here, since the mesh is built from three width arrays),
returns the deflation matrix for the `'Fx'`, `'Fy'`, `'Fz'`, `'Ez'` branches
and falls through (Python `None`) for `'N'`, `'F'`, `'E'`, `'Ex'`, `'Ey'`;
an unrecognized tag trips the bare `assert` (an `AssertionError` carrying no
message, hence not naming the tag). -/
def deflationMatrix (nr nt nz : ℕ) (location : String) :
    Except String (Option ((R : ℕ) × (C : ℕ) × Matrix (Fin R) (Fin C) ℚ)) :=
  if location ∈ ["N", "F", "Fx", "Fy", "E", "Ex", "Ey", "Fz", "Ez"] then
    if location = "Fx" then .ok (some ⟨_, _, flatten3 (deflFx nr nt nz)⟩)
    else if location = "Fy" then .ok (some ⟨_, _, flatten3 (deflFy nr nt nz)⟩)
    else if location = "Fz" then .ok (some ⟨_, _, speye ((nz + 1) * (nt * nr))⟩)
    else if location = "Ez" then .ok (some ⟨_, _, flatten2 (deflEz nr nt nz)⟩)
    else .ok none
  else .error "AssertionError"

/-! ### Face divergence (`CylMesh.faceDiv{x,y,z}`, `faceDiv`) -/

/-- `D1` of `faceDivx`: `utils.kron3(speye(nCz), speye(nCy), ddx(nCx)) * _deflationMatrix('Fx')`. -/
def D1F (nr nt nz : ℕ) : Matrix (CellIdx nr nt nz) (CellIdx nr nt nz) ℚ :=
  kron3 (speye nz) (speye nt) (ddx nr) * deflFx nr nt nz

/-- `D2` of `faceDivy`: `utils.kron3(speye(nCz), ddx(nCy), speye(nCx)) * _deflationMatrix('Fy')`. -/
def D2F (nr nt nz : ℕ) : Matrix (CellIdx nr nt nz) (CellIdx nr nt nz) ℚ :=
  kron3 (speye nz) (ddx nt) (speye nr) * deflFy nr nt nz

/-- `D3` of `faceDivz`: `utils.kron3(ddx(nCz), speye(nCy), speye(nCx))`. -/
def D3F (nr nt nz : ℕ) : Matrix (CellIdx nr nt nz) (Fin (nz + 1) × Fin nt × Fin nr) ℚ :=
  kron3 (ddx nz) (speye nt) (speye nr)

/-- `faceDivx` (full mode): `sdiag(1/vol) * D1 * sdiag(area restricted to Fx)`. -/
def faceDivxF {nr nt nz : ℕ} (hx : Fin nr → ℚ) (hy : Fin nt → ℚ) (hz : Fin nz → ℚ) :
    Matrix (CellIdx nr nt nz) (CellIdx nr nt nz) ℚ :=
  Matrix.diagonal (fun c => (volF hx hy hz c)⁻¹) * D1F nr nt nz *
    Matrix.diagonal (areaFxF hx hy hz)

/-- `faceDivy` (full mode): `sdiag(1/vol) * D2 * sdiag(area restricted to Fy)`. -/
def faceDivyF {nr nt nz : ℕ} (hx : Fin nr → ℚ) (hy : Fin nt → ℚ) (hz : Fin nz → ℚ) :
    Matrix (CellIdx nr nt nz) (CellIdx nr nt nz) ℚ :=
  Matrix.diagonal (fun c => (volF hx hy hz c)⁻¹) * D2F nr nt nz *
    Matrix.diagonal (areaFyF hx hz)

/-- `faceDivz` (full mode): `sdiag(1/vol) * D3 * sdiag(area restricted to Fz)`. -/
def faceDivzF {nr nt nz : ℕ} (hx : Fin nr → ℚ) (hy : Fin nt → ℚ) (hz : Fin nz → ℚ) :
    Matrix (CellIdx nr nt nz) (Fin (nz + 1) × Fin nt × Fin nr) ℚ :=
  Matrix.diagonal (fun c => (volF hx hy hz c)⁻¹) * D3F nr nt nz *
    Matrix.diagonal (areaFzF hx hy)

/-- `faceDiv` in full mode (`nCy > 1`): `sp.hstack((D1, D2, D3))` of the
component divergences, faces ordered `[Fx | Fy | Fz]`. -/
def faceDivFull {nr nt nz : ℕ} (hx : Fin nr → ℚ) (hy : Fin nt → ℚ) (hz : Fin nz → ℚ) :
    Matrix (CellIdx nr nt nz)
      (CellIdx nr nt nz ⊕ (CellIdx nr nt nz ⊕ (Fin (nz + 1) × Fin nt × Fin nr))) ℚ :=
  fromColumns (faceDivxF hx hy hz) (fromColumns (faceDivyF hx hy hz) (faceDivzF hx hy hz))

/-- `faceDiv` in symmetric mode: `sp.hstack((D1, D3))`, the azimuthal block
omitted.  The degenerate unit azimuthal axis (`nCy = 1`) is elided from the
index types; the flat row-major layout is unchanged. -/
def faceDivSym {nr nz : ℕ} (pi : ℚ) (hx : Fin nr → ℚ) (hz : Fin nz → ℚ) :
    Matrix (Fin nz × Fin nr) ((Fin nz × Fin nr) ⊕ (Fin (nz + 1) × Fin nr)) ℚ :=
  fromColumns
    (Matrix.diagonal (fun c => (volS pi hx hz c)⁻¹) *
      ((speye nz ⊗ₖ ddx nr) * (speye nz ⊗ₖ collapse_x nr)) *
      Matrix.diagonal (areaFxS pi hx hz))
    (Matrix.diagonal (fun c => (volS pi hx hz c)⁻¹) * (ddx nz ⊗ₖ speye nr) *
      Matrix.diagonal (areaFzS pi hx))

/-! ### Edge curl (`CylMesh.edgeCurl`) -/

/-- `Dt_r` (full mode): `utils.kron3(ddx(nCz), speye(nCy), speye(nCx))`,
the theta contribution to the curl landing on radial faces. -/
def DtrF (nr nt nz : ℕ) : Matrix (CellIdx nr nt nz) (Fin (nz + 1) × Fin nt × Fin nr) ℚ :=
  kron3 (ddx nz) (speye nt) (speye nr)

/-- `Dz_r` (full mode): `sp.kron(speye(nCz), sp.hstack([spzeros(nCy*nCx, 1), sp.kron(ddxz, speye(nCx))]))`. -/
def DzrF (nr nt nz : ℕ) :
    Matrix (Fin nz × Fin nt × Fin nr) (Fin nz × (Fin 1 ⊕ Fin nt × Fin nr)) ℚ :=
  speye nz ⊗ₖ fromColumns (0 : Matrix (Fin nt × Fin nr) (Fin 1) ℚ) (ddxz nt ⊗ₖ speye nr)

/-- `Dr_t` (full mode): `utils.kron3(ddx(nCz), speye(nCy), speye(nCx))`,
the radial contribution to the curl landing on theta faces. -/
def DrtF (nr nt nz : ℕ) : Matrix (CellIdx nr nt nz) (Fin (nz + 1) × Fin nt × Fin nr) ℚ :=
  kron3 (ddx nz) (speye nt) (speye nr)

/-- `Dz_t` (full mode): `sp.kron(speye(nCz), sp.hstack([wrap_z, sp.kron(speye(nCy), ddxr[:, 1:])]))`. -/
def DztF (nr nt nz : ℕ) :
    Matrix (Fin nz × Fin nt × Fin nr) (Fin nz × (Fin 1 ⊕ Fin nt × Fin nr)) ℚ :=
  speye nz ⊗ₖ fromColumns (wrap_z nt nr) (speye nt ⊗ₖ ddxt nr)

/-- `Dr_z` (full mode): `utils.kron3(speye(nCz+1), ddxz, speye(nCx))`. -/
def DrzF (nr nt nz : ℕ) :
    Matrix (Fin (nz + 1) × Fin nt × Fin nr) (Fin (nz + 1) × Fin nt × Fin nr) ℚ :=
  kron3 (speye (nz + 1)) (ddxz nt) (speye nr)

/-- `Dt_z` (full mode): `utils.kron3(speye(nCz+1), speye(nCy), ddxt)`. -/
def DtzF (nr nt nz : ℕ) :
    Matrix (Fin (nz + 1) × Fin nt × Fin nr) (Fin (nz + 1) × Fin nt × Fin nr) ℚ :=
  kron3 (speye (nz + 1)) (speye nt) (ddxt nr)

/-- `Cr` (full mode): `sp.hstack((O1, -Dt_r, Dz_r))`, edges ordered `[Ex | Ey | Ez]`. -/
def CrF (nr nt nz : ℕ) :
    Matrix (CellIdx nr nt nz)
      ((Fin (nz + 1) × Fin nt × Fin nr) ⊕
        ((Fin (nz + 1) × Fin nt × Fin nr) ⊕ Fin nz × (Fin 1 ⊕ Fin nt × Fin nr))) ℚ :=
  fromColumns 0 (fromColumns (-DtrF nr nt nz) (DzrF nr nt nz))

/-- `Ct` (full mode): `sp.hstack((Dr_t, O2, -Dz_t))`. -/
def CtF (nr nt nz : ℕ) :
    Matrix (CellIdx nr nt nz)
      ((Fin (nz + 1) × Fin nt × Fin nr) ⊕
        ((Fin (nz + 1) × Fin nt × Fin nr) ⊕ Fin nz × (Fin 1 ⊕ Fin nt × Fin nr))) ℚ :=
  fromColumns (DrtF nr nt nz) (fromColumns 0 (-DztF nr nt nz))

/-- `Cz` (full mode): `sp.hstack((-Dr_z, Dt_z, O3))`. -/
def CzF (nr nt nz : ℕ) :
    Matrix (Fin (nz + 1) × Fin nt × Fin nr)
      ((Fin (nz + 1) × Fin nt × Fin nr) ⊕
        ((Fin (nz + 1) × Fin nt × Fin nr) ⊕ Fin nz × (Fin 1 ⊕ Fin nt × Fin nr))) ℚ :=
  fromColumns (-DrzF nr nt nz) (fromColumns (DtzF nr nt nz) 0)

/-- Full-mode face areas, concatenated `[Fx | Fy | Fz]` (`CylMesh.area`). -/
def areaFull {nr nt nz : ℕ} (hx : Fin nr → ℚ) (hy : Fin nt → ℚ) (hz : Fin nz → ℚ) :
    CellIdx nr nt nz ⊕ (CellIdx nr nt nz ⊕ (Fin (nz + 1) × Fin nt × Fin nr)) → ℚ :=
  Sum.elim (areaFxF hx hy hz) (Sum.elim (areaFyF hx hz) (areaFzF hx hy))

/-- Full-mode edge lengths, concatenated `[Ex | Ey | Ez]` (`CylMesh.edge`). -/
def edgeFull {nr nt nz : ℕ} (hx : Fin nr → ℚ) (hy : Fin nt → ℚ) (hz : Fin nz → ℚ) :
    (Fin (nz + 1) × Fin nt × Fin nr) ⊕
      ((Fin (nz + 1) × Fin nt × Fin nr) ⊕ Fin nz × (Fin 1 ⊕ Fin nt × Fin nr)) → ℚ :=
  Sum.elim (edgeExF hx) (Sum.elim (edgeEyF hx hy) (edgeEzF hz))

/-- `edgeCurl` in full mode:
`sdiag(1/area) * sp.vstack([Cr, Ct, Cz]) * sdiag(edge)`. -/
def edgeCurlFull {nr nt nz : ℕ} (hx : Fin nr → ℚ) (hy : Fin nt → ℚ) (hz : Fin nz → ℚ) :
    Matrix (CellIdx nr nt nz ⊕ (CellIdx nr nt nz ⊕ (Fin (nz + 1) × Fin nt × Fin nr)))
      ((Fin (nz + 1) × Fin nt × Fin nr) ⊕
        ((Fin (nz + 1) × Fin nt × Fin nr) ⊕ Fin nz × (Fin 1 ⊕ Fin nt × Fin nr))) ℚ :=
  Matrix.diagonal (fun f => (areaFull hx hy hz f)⁻¹) *
    fromRows (CrF nr nt nz) (fromRows (CtF nr nt nz) (CzF nr nt nz)) *
    Matrix.diagonal (edgeFull hx hy hz)

/-- Symmetric-mode face areas, concatenated `[Fx | Fz]`. -/
def areaSym {nr nz : ℕ} (pi : ℚ) (hx : Fin nr → ℚ) (hz : Fin nz → ℚ) :
    (Fin nz × Fin nr) ⊕ (Fin (nz + 1) × Fin nr) → ℚ :=
  Sum.elim (areaFxS pi hx hz) (areaFzS pi hx)

/-- `edgeCurl` in symmetric mode:
`sdiag(1/area) * sp.vstack((Dz, Dr)) * sdiag(edge)` with
`Dz = -sp.kron(dz, speye(nCx))` and `Dr = sp.kron(speye(nNz), dr)`; the unit
azimuthal axis is elided from the index types as in `faceDivSym`. -/
def edgeCurlSym {nr nz : ℕ} (pi : ℚ) (hx : Fin nr → ℚ) (hz : Fin nz → ℚ) :
    Matrix ((Fin nz × Fin nr) ⊕ (Fin (nz + 1) × Fin nr)) (Fin (nz + 1) × Fin nr) ℚ :=
  Matrix.diagonal (fun f => (areaSym pi hx hz f)⁻¹) *
    fromRows (-(ddx nz ⊗ₖ speye nr)) (speye (nz + 1) ⊗ₖ drSym nr) *
    Matrix.diagonal (edgeS pi hx)

/-! ### Gradient, Laplacian, averaging (`CylMesh.cellGrad` … `aveF2CCV`) -/

/-- `CylMesh.cellGrad`: always raises `NotImplementedError`. -/
def cellGrad (nr nt nz : ℕ) : Except String Empty :=
  .error "Cell Grad is not yet implemented."

/-- `CylMesh.nodalGrad`: returns Python `None` on a symmetric mesh, raises
`NotImplementedError` otherwise. -/
def nodalGrad (nr nt nz : ℕ) : Except String (Option Empty) :=
  if isSymmetric nt then .ok none else .error "nodalGrad not yet implemented"

/-- `CylMesh.nodalLaplacian`: always raises `NotImplementedError`. -/
def nodalLaplacian (nr nt nz : ℕ) : Except String Empty :=
  .error "nodalLaplacian not yet implemented"

/-- `CylMesh.aveE2CC`: symmetric mode `sp.kron(av(nCz), avR)` (edges → cell
centres), full mode raises `NotImplementedError`. -/
def aveE2CC (nr nt nz : ℕ) :
    Except String (Matrix (Fin nz × Fin nr) (Fin (nz + 1) × Fin nr) ℚ) :=
  if isSymmetric nt then .ok (av nz ⊗ₖ avR nr)
  else .error "wrapping in the averaging is not yet implemented"

/-- `CylMesh.aveE2CCV`: symmetric mode returns `self.aveE2CC`, full mode
raises `NotImplementedError`. -/
def aveE2CCV (nr nt nz : ℕ) :
    Except String (Matrix (Fin nz × Fin nr) (Fin (nz + 1) × Fin nr) ℚ) :=
  if isSymmetric nt then aveE2CC nr nt nz
  else .error "wrapping in the averaging is not yet implemented"

/-- `CylMesh.aveF2CC`: symmetric mode
`0.5 * sp.hstack((sp.kron(speye(nCz), avR), sp.kron(av(nCz), speye(nCx))))`,
full mode raises `NotImplementedError`. -/
def aveF2CC (nr nt nz : ℕ) :
    Except String
      (Matrix (Fin nz × Fin nr) ((Fin nz × Fin nr) ⊕ (Fin (nz + 1) × Fin nr)) ℚ) :=
  if isSymmetric nt then
    .ok ((1/2 : ℚ) • fromColumns (speye nz ⊗ₖ avR nr) (av nz ⊗ₖ speye nr))
  else .error "wrapping in the averaging is not yet implemented"

/-- `CylMesh.aveF2CCV`: symmetric mode
`sp.block_diag((sp.kron(speye(nCz), avR), sp.kron(av(nCz), speye(nCx))))`,
full mode raises `NotImplementedError`. -/
def aveF2CCV (nr nt nz : ℕ) :
    Except String
      (Matrix ((Fin nz × Fin nr) ⊕ (Fin nz × Fin nr))
        ((Fin nz × Fin nr) ⊕ (Fin (nz + 1) × Fin nr)) ℚ) :=
  if isSymmetric nt then
    .ok (fromBlocks (speye nz ⊗ₖ avR nr) 0 0 (av nz ⊗ₖ speye nr))
  else .error "wrapping in the averaging is not yet implemented"

/-! ### Interpolation and construction -/

/-- Horizontal concatenation on flat `Fin` column indices (`sp.hstack`). -/
def hstackF {m a b : ℕ} (A : Matrix (Fin m) (Fin a) ℚ) (B : Matrix (Fin m) (Fin b) ℚ) :
    Matrix (Fin m) (Fin (a + b)) ℚ :=
  Matrix.reindex (Equiv.refl _) finSumFinEquiv (fromColumns A B)

/-- `CylMesh.getInterpolationMat(loc, locType, zerosOutside)`.  The scalar
cell-centre interpolation matrix `utils.interpmat(loc, *getTensor('CC'))` and
the base-class fallback `_getInterpolationMat` live outside the provided
sources, so they enter as parameters `interpmatCC` and `baseInterp`
(modelled from the spec §4.5).  The `zerosOutside=True` path of the `'CCV*'`
branch reads the undefined name `indZeros` in the source and is modelled as a
fatal `NameError`. -/
def getInterpolationMat (nr nt nz nP : ℕ) (locType : String) (zerosOutside : Bool)
    (interpmatCC : Matrix (Fin nP) (Fin (nC nr nt nz)) ℚ)
    (baseInterp : String → (c : ℕ) × Matrix (Fin nP) (Fin c) ℚ) :
    Except String ((c : ℕ) × Matrix (Fin nP) (Fin c) ℚ) :=
  if isSymmetric nt ∧ locType ∈ ["Ex", "Ez", "Fy"] then
    .error ("Symmetric CylMesh does not support " ++ locType ++
      " interpolation, as this variable does not exist.")
  else if locType ∈ ["CCVx", "CCVy", "CCVz"] then
    let Q := interpmatCC
    let Z : Matrix (Fin nP) (Fin (nC nr nt nz)) ℚ := 0
    let QZ : (c : ℕ) × Matrix (Fin nP) (Fin c) ℚ :=
      if locType = "CCVx" then ⟨_, hstackF Q Z⟩
      else if locType = "CCVy" then ⟨_, Q⟩
      else ⟨_, hstackF Z Q⟩
    if zerosOutside then .error "NameError: name indZeros is not defined"
    else .ok QZ
  else .ok (baseInterp locType)

/-- The state stored by a successfully constructed mesh (`CylMesh.__init__`
together with the `BaseTensorMesh` width/origin storage, the latter modelled
from the spec §3: the width arrays are stored unchanged). -/
structure CylMeshData where
  hx : List ℚ
  hy : List ℚ
  hz : List ℚ
  x0 : List ℚ
  cartesianOrigin : List ℚ
  deriving DecidableEq

/-- `CylMesh.__init__(h, x0, cartesianOrigin)` for a 3-D width triple
(`dim = 3`): asserts `|hy.sum() - 2*pi| < 1e-10`, then defaults
`cartesianOrigin` to zeros and asserts its length equals the dimension. -/
def cylMeshInit (pi : ℚ) (hx hy hz : List ℚ) (x0 : Option (List ℚ))
    (cartesianOrigin : Option (List ℚ)) : Except String CylMeshData :=
  if ¬(|hy.sum - 2 * pi| < 1 / 10 ^ 10) then
    .error "The 2nd dimension must sum to 2*pi"
  else
    let co := cartesianOrigin.getD (List.replicate 3 0)
    if co.length ≠ 3 then
      .error "cartesianOrigin must be the same length as the dimension of the mesh."
    else
      .ok ⟨hx, hy, hz, x0.getD (List.replicate 3 0), co⟩

/-! ### Helper lemmas: 1-D stencil identities -/

lemma ddx_decomp (n : ℕ) (i : Fin n) (j : Fin (n + 1)) :
    ddx n i j = (if j = i.castSucc then -1 else 0) + (if j = i.succ then 1 else 0) := by
  simp only [ddx, Fin.ext_iff, Fin.coe_castSucc, Fin.val_succ]
  split_ifs <;> try norm_num
  all_goals omega

lemma collapse_decomp (n : ℕ) (j : Fin (n + 1)) (k : Fin n) :
    collapse_x n j k = if j = k.succ then 1 else 0 := by
  simp only [collapse_x, Fin.ext_iff, Fin.val_succ]

lemma wrap_decomp (n : ℕ) (j : Fin (n + 1)) (k : Fin n) :
    wrap_theta n j k =
      (if j = k.castSucc then 1 else 0) + (if (k : ℕ) = 0 ∧ j = Fin.last n then 1 else 0) := by
  have hk := k.isLt
  have hj := j.isLt
  simp only [wrap_theta, Fin.ext_iff, Fin.coe_castSucc, Fin.val_last]
  split_ifs <;> try norm_num
  all_goals omega

lemma sum_mul_ite_one {m : ℕ} (f : Fin m → ℚ) (c : Fin m) :
    (∑ j, f j * (if j = c then 1 else 0)) = f c := by
  simp [mul_ite]

lemma ddx_mul_collapse (n : ℕ) : ddx n * collapse_x n = ddxt n := by
  ext i k
  rw [Matrix.mul_apply]
  simp only [collapse_decomp]
  rw [sum_mul_ite_one]
  simp [ddxt]

lemma ddx_last (n : ℕ) (i : Fin n) :
    ddx n i (Fin.last n) = if (i : ℕ) = n - 1 then 1 else 0 := by
  have hi := i.isLt
  simp only [ddx, Fin.val_last]
  split_ifs <;> try norm_num
  all_goals omega

lemma ddx_mul_wrap (n : ℕ) : ddx n * wrap_theta n = ddxz n := by
  ext i k
  rw [Matrix.mul_apply]
  simp only [wrap_decomp, mul_add, Finset.sum_add_distrib]
  rw [sum_mul_ite_one]
  by_cases hk : (k : ℕ) = 0
  · simp only [hk, true_and]
    rw [sum_mul_ite_one, ddx_last]
    simp [ddxz, ddxt, hk]
  · simp only [hk, false_and, if_false, mul_zero, Finset.sum_const_zero, add_zero]
    simp [ddxz, hk]

lemma ddxt_eq_drSym (n : ℕ) : ddxt n = drSym n := by
  ext i k
  simp only [ddxt, Matrix.submatrix_apply, id_eq, ddx, drSym, Fin.val_succ]
  split_ifs <;> try norm_num
  all_goals omega

lemma ddx_rowsum (n : ℕ) (i : Fin n) : (∑ j, ddx n i j) = 0 := by
  simp [ddx_decomp, Finset.sum_add_distrib]

lemma ddxz_rowsum (n : ℕ) (i : Fin n) : (∑ k, ddxz n i k) = 0 := by
  have hcast : (∑ k : Fin n, ddx n i (Fin.castSucc k)) = - ddx n i (Fin.last n) := by
    have h := ddx_rowsum n i
    rw [Fin.sum_univ_castSucc] at h
    linarith
  simp only [ddxz, Matrix.add_apply, Matrix.of_apply, Matrix.submatrix_apply, id_eq,
    Finset.sum_add_distrib, hcast, ddx_last]
  by_cases hi : (i : ℕ) = n - 1
  · have hn : 0 < n := i.pos
    have h1 : (∑ k : Fin n, if (i : ℕ) = n - 1 ∧ (k : ℕ) = 0 then (1 : ℚ) else 0) = 1 := by
      simp only [hi, true_and]
      have h2 : ∀ k : Fin n, ((k : ℕ) = 0) = (k = ⟨0, hn⟩) := by
        intro k; simp [Fin.ext_iff]
      simp_rw [h2]
      simp
    rw [h1]
    simp [hi]
  · simp [hi]

lemma ddxzkron_mul_wrapz (nt nr : ℕ) :
    (ddxz nt ⊗ₖ speye nr) * wrap_z nt nr = 0 := by
  ext p c
  obtain ⟨j, i⟩ := p
  rw [Matrix.mul_apply, Fintype.sum_prod_type]
  have hterm : ∀ (q1 : Fin nt) (q2 : Fin nr),
      (ddxz nt ⊗ₖ speye nr) (j, i) (q1, q2) * wrap_z nt nr (q1, q2) c =
        ddxz nt j q1 * (if i = q2 then (if (q2 : ℕ) = 0 then (-1 : ℚ) else 0) else 0) := by
    intro q1 q2
    simp only [Matrix.kroneckerMap_apply, speye, Matrix.one_apply, wrap_z]
    split_ifs <;> ring
  simp_rw [hterm]
  have hinner : ∀ q1 : Fin nt,
      (∑ q2 : Fin nr, ddxz nt j q1 *
        (if i = q2 then (if (q2 : ℕ) = 0 then (-1 : ℚ) else 0) else 0)) =
      ddxz nt j q1 * (if (i : ℕ) = 0 then (-1 : ℚ) else 0) := by
    intro q1
    rw [← Finset.mul_sum]
    congr 1
    rw [Finset.sum_ite_eq]
    simp
  simp_rw [hinner]
  rw [← Finset.sum_mul, ddxz_rowsum]
  simp

/-! ### Helper lemmas: block and diagonal algebra -/

lemma speye_eq (n : ℕ) : speye n = (1 : Matrix (Fin n) (Fin n) ℚ) := rfl

lemma kron3_mul {l m n p q r l' m' n' : Type}
    [Fintype p] [Fintype q] [Fintype r] [DecidableEq p] [DecidableEq q] [DecidableEq r]
    (A : Matrix l p ℚ) (B : Matrix m q ℚ) (C : Matrix n r ℚ)
    (A' : Matrix p l' ℚ) (B' : Matrix q m' ℚ) (C' : Matrix r n' ℚ) :
    kron3 A B C * kron3 A' B' C' = kron3 (A * A') (B * B') (C * C') := by
  unfold kron3
  rw [Matrix.mul_kronecker_mul, Matrix.mul_kronecker_mul]

lemma fromColumns_add {m n₁ n₂ : Type} (A C : Matrix m n₁ ℚ) (B D : Matrix m n₂ ℚ) :
    fromColumns A B + fromColumns C D = fromColumns (A + C) (B + D) := by
  ext i j
  cases j <;> simp [Matrix.fromColumns]

lemma diagonal_elim_mul_fromRows {ι κ μ : Type} [Fintype ι] [Fintype κ]
    [DecidableEq ι] [DecidableEq κ]
    (a : ι → ℚ) (b : κ → ℚ) (X : Matrix ι μ ℚ) (Y : Matrix κ μ ℚ) :
    Matrix.diagonal (Sum.elim a b) * fromRows X Y =
      fromRows (Matrix.diagonal a * X) (Matrix.diagonal b * Y) := by
  ext i j
  cases i with
  | inl i1 =>
    rw [Matrix.mul_apply]
    simp [Fintype.sum_sum_type, Matrix.fromRows, Matrix.diagonal_apply, Matrix.mul_apply,
      Finset.sum_ite_eq]
  | inr i2 =>
    rw [Matrix.mul_apply]
    simp [Fintype.sum_sum_type, Matrix.fromRows, Matrix.diagonal_apply, Matrix.mul_apply,
      Finset.sum_ite_eq]

lemma elim_inv {ι κ : Type} (a : ι → ℚ) (b : κ → ℚ) :
    (fun f => (Sum.elim a b f)⁻¹) =
      Sum.elim (fun x => (a x)⁻¹) (fun x => (b x)⁻¹) := by
  funext f
  cases f <;> simp

lemma diag_sandwich {α β γ : Type} [Fintype β] [DecidableEq β]
    (P : Matrix α β ℚ) (Q : Matrix β γ ℚ) (w : β → ℚ) (hw : ∀ x, w x ≠ 0) :
    (P * Matrix.diagonal w) * (Matrix.diagonal (fun x => (w x)⁻¹) * Q) = P * Q := by
  rw [Matrix.mul_assoc P, ← Matrix.mul_assoc (Matrix.diagonal w),
    Matrix.diagonal_mul_diagonal]
  have : (fun i => w i * (w i)⁻¹) = fun _ => (1 : ℚ) := by
    funext i; exact mul_inv_cancel₀ (hw i)
  rw [this, Matrix.diagonal_one, Matrix.one_mul]

/-- The integer-stencil core of `div ∘ curl = 0` in full mode:
`D1 * Cr + D2 * Ct + D3 * Cz = 0`. -/
lemma divCurlCoreFull (nr nt nz : ℕ) :
    D1F nr nt nz * CrF nr nt nz + D2F nr nt nz * CtF nr nt nz +
      D3F nr nt nz * CzF nr nt nz = 0 := by
  have hD1 : D1F nr nt nz = kron3 (speye nz) (speye nt) (ddxt nr) := by
    unfold D1F deflFx
    rw [kron3_mul, ddx_mul_collapse]
    simp [speye_eq]
  have hD2 : D2F nr nt nz = kron3 (speye nz) (ddxz nt) (speye nr) := by
    unfold D2F deflFy
    rw [kron3_mul, ddx_mul_wrap]
    simp [speye_eq]
  -- the three edge-column blocks of the sum agree pairwise
  have hEx : D2F nr nt nz * DrtF nr nt nz = D3F nr nt nz * DrzF nr nt nz := by
    rw [hD2]
    unfold DrtF DrzF D3F
    rw [kron3_mul, kron3_mul]
    simp [speye_eq]
  have hEy : D1F nr nt nz * DtrF nr nt nz = D3F nr nt nz * DtzF nr nt nz := by
    rw [hD1]
    unfold DtrF DtzF D3F
    rw [kron3_mul, kron3_mul]
    simp [speye_eq]
  have hEz : D1F nr nt nz * DzrF nr nt nz = D2F nr nt nz * DztF nr nt nz := by
    rw [hD1, hD2]
    unfold DzrF DztF kron3
    rw [← Matrix.mul_kronecker_mul, ← Matrix.mul_kronecker_mul,
      Matrix.mul_fromColumns, Matrix.mul_fromColumns,
      ← Matrix.mul_kronecker_mul, ← Matrix.mul_kronecker_mul, ddxzkron_mul_wrapz]
    simp [speye_eq]
  unfold CrF CtF CzF
  simp only [Matrix.mul_fromColumns, Matrix.mul_zero, Matrix.mul_neg, fromColumns_add]
  rw [hEx, hEy, hEz]
  simp

/-! ### Positivity of the geometric quantities -/

lemma cumsum_succ {n : ℕ} (h : Fin n → ℚ) (k : ℕ) :
    cumsum h (k + 1) = cumsum h k + if hb : k < n then h ⟨k, hb⟩ else 0 :=
  Finset.sum_range_succ _ _

lemma cumsum_nonneg {n : ℕ} (h : Fin n → ℚ) (hp : ∀ i, 0 < h i) (k : ℕ) :
    0 ≤ cumsum h k := by
  refine Finset.sum_nonneg fun j _ => ?_
  by_cases hb : j < n
  · simp only [hb, dif_pos]
    exact (hp ⟨j, hb⟩).le
  · simp [hb]

lemma cumsum_pos {n : ℕ} (h : Fin n → ℚ) (hp : ∀ i, 0 < h i) (hn : 0 < n)
    (k : ℕ) (hk : 1 ≤ k) : 0 < cumsum h k := by
  induction k with
  | zero => omega
  | succ m ih =>
    rw [cumsum_succ]
    by_cases hm : 1 ≤ m
    · have h1 := ih hm
      have h2 : (0 : ℚ) ≤ if hb : m < n then h ⟨m, hb⟩ else 0 := by
        by_cases hb : m < n
        · simp only [hb, dif_pos]; exact (hp _).le
        · simp [hb]
      linarith
    · have hm0 : m = 0 := by omega
      subst hm0
      simp only [cumsum, Finset.range_zero, Finset.sum_empty, hn, dif_pos, zero_add]
      exact hp _

lemma cumsum_lt_succ {n : ℕ} (h : Fin n → ℚ) (hp : ∀ i, 0 < h i) (k : ℕ) (hk : k < n) :
    cumsum h k < cumsum h (k + 1) := by
  rw [cumsum_succ]
  simp only [hk, dif_pos]
  linarith [hp (⟨k, hk⟩ : Fin n)]

lemma annulus_pos {n : ℕ} (h : Fin n → ℚ) (hp : ∀ i, 0 < h i) (k : ℕ) (hk : k < n) :
    0 < cumsum h (k + 1) ^ 2 - cumsum h k ^ 2 := by
  have h0 : 0 ≤ cumsum h k := cumsum_nonneg h hp k
  have h1 : cumsum h k < cumsum h (k + 1) := cumsum_lt_succ h hp k hk
  have := pow_lt_pow_left₀ h1 h0 (by norm_num : (2 : ℕ) ≠ 0)
  linarith

/-! ### `faceDiv * edgeCurl = 0` -/

lemma elim_inv3 {ι κ μ : Type} (a : ι → ℚ) (b : κ → ℚ) (c : μ → ℚ) :
    (fun f => (Sum.elim a (Sum.elim b c) f)⁻¹) =
      Sum.elim (fun x => (a x)⁻¹) (Sum.elim (fun x => (b x)⁻¹) (fun x => (c x)⁻¹)) := by
  funext f
  rcases f with x | x
  · simp
  · rcases x with y | y <;> simp

/-- Assembled `div ∘ curl = 0` in full 3-D mode, given nonvanishing face areas. -/
lemma faceDiv_mul_edgeCurl_full {nr nt nz : ℕ}
    (hx : Fin nr → ℚ) (hy : Fin nt → ℚ) (hz : Fin nz → ℚ)
    (hR : ∀ c, areaFxF hx hy hz c ≠ 0)
    (hT : ∀ c, areaFyF hx hz (c : CellIdx nr nt nz) ≠ 0)
    (hZ : ∀ c : Fin (nz + 1) × Fin nt × Fin nr, areaFzF hx hy c ≠ 0) :
    faceDivFull hx hy hz * edgeCurlFull hx hy hz = 0 := by
  unfold faceDivFull edgeCurlFull areaFull
  rw [elim_inv3, diagonal_elim_mul_fromRows, diagonal_elim_mul_fromRows,
    Matrix.fromRows_mul, Matrix.fromRows_mul,
    Matrix.fromColumns_mul_fromRows, Matrix.fromColumns_mul_fromRows]
  unfold faceDivxF faceDivyF faceDivzF
  rw [Matrix.mul_assoc (Matrix.diagonal (fun c => (areaFxF hx hy hz c)⁻¹)),
    Matrix.mul_assoc (Matrix.diagonal (fun c => (areaFyF hx hz c)⁻¹)),
    Matrix.mul_assoc (Matrix.diagonal (fun c => (areaFzF hx hy c)⁻¹))]
  rw [diag_sandwich _ _ _ hR, diag_sandwich _ _ _ hT, diag_sandwich _ _ _ hZ]
  rw [Matrix.mul_assoc _ (D1F nr nt nz), ← Matrix.mul_assoc (D1F nr nt nz),
    Matrix.mul_assoc _ (D2F nr nt nz), ← Matrix.mul_assoc (D2F nr nt nz),
    Matrix.mul_assoc _ (D3F nr nt nz), ← Matrix.mul_assoc (D3F nr nt nz)]
  rw [← Matrix.mul_add, ← Matrix.mul_add, ← Matrix.add_mul, ← Matrix.add_mul,
    ← add_assoc, divCurlCoreFull]
  simp

/-- The integer-stencil core of `div ∘ curl = 0` in symmetric mode. -/
lemma divCurlCoreSym (nr nz : ℕ) :
    ((speye nz ⊗ₖ ddx nr) * (speye nz ⊗ₖ collapse_x nr)) * (-(ddx nz ⊗ₖ speye nr)) +
      (ddx nz ⊗ₖ speye nr) * (speye (nz + 1) ⊗ₖ drSym nr) = 0 := by
  rw [← Matrix.mul_kronecker_mul, ddx_mul_collapse, Matrix.mul_neg,
    ← Matrix.mul_kronecker_mul, ← Matrix.mul_kronecker_mul]
  simp [speye_eq, ddxt_eq_drSym]

/-- Assembled `div ∘ curl = 0` in symmetric mode, given nonvanishing face areas. -/
lemma faceDiv_mul_edgeCurl_sym {nr nz : ℕ} (pi : ℚ) (hx : Fin nr → ℚ) (hz : Fin nz → ℚ)
    (hR : ∀ c, areaFxS pi hx hz c ≠ 0)
    (hZ : ∀ c : Fin (nz + 1) × Fin nr, areaFzS pi hx c ≠ 0) :
    faceDivSym pi hx hz * edgeCurlSym pi hx hz = 0 := by
  unfold faceDivSym edgeCurlSym areaSym
  rw [elim_inv, diagonal_elim_mul_fromRows, Matrix.fromRows_mul,
    Matrix.fromColumns_mul_fromRows]
  rw [Matrix.mul_assoc (Matrix.diagonal (fun c => (areaFxS pi hx hz c)⁻¹)),
    Matrix.mul_assoc (Matrix.diagonal (fun c => (areaFzS pi hx c)⁻¹))]
  rw [diag_sandwich _ _ _ hR, diag_sandwich _ _ _ hZ]
  rw [Matrix.mul_assoc _ ((speye nz ⊗ₖ ddx nr) * (speye nz ⊗ₖ collapse_x nr)),
    ← Matrix.mul_assoc ((speye nz ⊗ₖ ddx nr) * (speye nz ⊗ₖ collapse_x nr)),
    Matrix.mul_assoc _ (ddx nz ⊗ₖ speye nr), ← Matrix.mul_assoc (ddx nz ⊗ₖ speye nr)]
  rw [← Matrix.mul_add, ← Matrix.add_mul, divCurlCoreSym]
  simp

lemma areaFxF_ne_zero {nr nt nz : ℕ} (hx : Fin nr → ℚ) (hy : Fin nt → ℚ) (hz : Fin nz → ℚ)
    (hxp : ∀ i, 0 < hx i) (hyp : ∀ j, 0 < hy j) (hzp : ∀ k, 0 < hz k) :
    ∀ c : CellIdx nr nt nz, areaFxF hx hy hz c ≠ 0 := by
  intro c
  have hcs : 0 < cumsum hx ((c.2.2 : ℕ) + 1) :=
    cumsum_pos hx hxp c.2.2.pos _ (by omega)
  have : 0 < areaFxF hx hy hz c := by
    unfold areaFxF vectorNxF
    rw [Fin.val_succ]
    exact mul_pos (hzp _) (mul_pos (hyp _) hcs)
  exact ne_of_gt this

lemma areaFyF_ne_zero {nr nt nz : ℕ} (hx : Fin nr → ℚ) (hz : Fin nz → ℚ)
    (hxp : ∀ i, 0 < hx i) (hzp : ∀ k, 0 < hz k) :
    ∀ c : CellIdx nr nt nz, areaFyF hx hz c ≠ 0 := by
  intro c
  exact ne_of_gt (mul_pos (hzp _) (hxp _))

lemma areaFzF_ne_zero {nr nt nz : ℕ} (hx : Fin nr → ℚ) (hy : Fin nt → ℚ)
    (hxp : ∀ i, 0 < hx i) (hyp : ∀ j, 0 < hy j) :
    ∀ c : Fin (nz + 1) × Fin nt × Fin nr, areaFzF hx hy c ≠ 0 := by
  intro c
  have hann := annulus_pos hx hxp (c.2.2 : ℕ) c.2.2.isLt
  have : 0 < areaFzF hx hy c := by
    unfold areaFzF vectorNxF
    rw [Fin.val_succ, Fin.coe_castSucc]
    have : 0 < (1 / 2 : ℚ) * (cumsum hx ((c.2.2 : ℕ) + 1) ^ 2 - cumsum hx (c.2.2 : ℕ) ^ 2) := by
      linarith
    exact mul_pos (hyp _) this
  exact ne_of_gt this

lemma areaFxS_ne_zero {nr nz : ℕ} (pi : ℚ) (hx : Fin nr → ℚ) (hz : Fin nz → ℚ)
    (hpi : 0 < pi) (hxp : ∀ i, 0 < hx i) (hzp : ∀ k, 0 < hz k) :
    ∀ c : Fin nz × Fin nr, areaFxS pi hx hz c ≠ 0 := by
  intro c
  have hcs : 0 < cumsum hx ((c.2 : ℕ) + 1) := cumsum_pos hx hxp c.2.pos _ (by omega)
  have : 0 < areaFxS pi hx hz c := by
    unfold areaFxS vectorNxS
    exact mul_pos (hzp _) (mul_pos (by linarith) hcs)
  exact ne_of_gt this

lemma areaFzS_ne_zero {nr nz : ℕ} (pi : ℚ) (hx : Fin nr → ℚ)
    (hpi : 0 < pi) (hxp : ∀ i, 0 < hx i) :
    ∀ c : Fin (nz + 1) × Fin nr, areaFzS pi hx c ≠ 0 := by
  intro c
  have hann := annulus_pos hx hxp (c.2 : ℕ) c.2.isLt
  have : 0 < areaFzS pi hx c := by
    unfold areaFzS vectorNxS
    exact mul_pos hpi (by linarith)
  exact ne_of_gt this

/-- C1.  For every valid mesh (symmetric and full 3-D mode, at least 2 cells
per radial/axial axis — and per azimuthal axis in full mode — with positive
widths, the azimuthal widths summing to 2π in full mode), the product of the
face-divergence operator and the edge-curl operator is the zero matrix
(exactly, hence within the stated 1e-10 magnitude). -/
theorem C1_faceDiv_mul_edgeCurl_zero :
    (∀ (nr nz : ℕ) (pi : ℚ) (hx : Fin nr → ℚ) (hz : Fin nz → ℚ),
      2 ≤ nr → 2 ≤ nz → 0 < pi → (∀ i, 0 < hx i) → (∀ k, 0 < hz k) →
      faceDivSym pi hx hz * edgeCurlSym pi hx hz = 0) ∧
    (∀ (nr nt nz : ℕ) (pi : ℚ) (hx : Fin nr → ℚ) (hy : Fin nt → ℚ) (hz : Fin nz → ℚ),
      2 ≤ nr → 2 ≤ nt → 2 ≤ nz → 0 < pi → (∑ j, hy j) = 2 * pi →
      (∀ i, 0 < hx i) → (∀ j, 0 < hy j) → (∀ k, 0 < hz k) →
      faceDivFull hx hy hz * edgeCurlFull hx hy hz = 0) := by
  constructor
  · intro nr nz pi hx hz _ _ hpi hxp hzp
    exact faceDiv_mul_edgeCurl_sym pi hx hz
      (areaFxS_ne_zero pi hx hz hpi hxp hzp) (areaFzS_ne_zero pi hx hpi hxp)
  · intro nr nt nz pi hx hy hz _ _ _ _ _ hxp hyp hzp
    exact faceDiv_mul_edgeCurl_full hx hy hz
      (areaFxF_ne_zero hx hy hz hxp hyp hzp) (areaFyF_ne_zero hx hz hxp hzp)
      (areaFzF_ne_zero hx hy hxp hyp)

/-- Witness for C1 at a concrete 2×1×2 symmetric and 2×2×2 full mesh. -/
theorem C1_witness :
    ((2 ≤ 2 ∧ (0 : ℚ) < 3 ∧ (∀ i : Fin 2, (0 : ℚ) < 1)) ∧
      faceDivSym 3 (fun _ : Fin 2 => 1) (fun _ : Fin 2 => 1) *
        edgeCurlSym 3 (fun _ : Fin 2 => 1) (fun _ : Fin 2 => 1) = 0) ∧
    (((∑ _j : Fin 2, (3 : ℚ)) = 2 * 3) ∧
      faceDivFull (fun _ : Fin 2 => 1) (fun _ : Fin 2 => 3) (fun _ : Fin 2 => 1) *
        edgeCurlFull (fun _ : Fin 2 => 1) (fun _ : Fin 2 => 3) (fun _ : Fin 2 => 1) = 0) :=
  ⟨⟨⟨le_refl 2, by norm_num, fun _ => by norm_num⟩,
    C1_faceDiv_mul_edgeCurl_zero.1 2 2 3 _ _ (by norm_num) (by norm_num) (by norm_num)
      (fun _ => by norm_num) (fun _ => by norm_num)⟩,
   ⟨by simp, C1_faceDiv_mul_edgeCurl_zero.2 2 2 2 3 _ _ _ (by norm_num) (by norm_num)
      (by norm_num) (by norm_num) (by simp)
      (fun _ => by norm_num) (fun _ => by norm_num) (fun _ => by norm_num)⟩⟩

/-! ### Total volume (C6) -/

lemma sum_range_telescope (f : ℕ → ℚ) (m : ℕ) :
    (∑ k ∈ Finset.range m, (f (k + 1) - f k)) = f m - f 0 := by
  induction m with
  | zero => simp
  | succ m ih => rw [Finset.sum_range_succ, ih]; ring

lemma annulus_sum {nr : ℕ} (hx : Fin nr → ℚ) :
    (∑ i : Fin nr, (cumsum hx ((i : ℕ) + 1) ^ 2 - cumsum hx (i : ℕ) ^ 2)) =
      cumsum hx nr ^ 2 := by
  rw [Fin.sum_univ_eq_sum_range (fun i => cumsum hx (i + 1) ^ 2 - cumsum hx i ^ 2)]
  rw [sum_range_telescope (fun k => cumsum hx k ^ 2)]
  simp [cumsum]

lemma volS_sum {nr nz : ℕ} (pi : ℚ) (hx : Fin nr → ℚ) (hz : Fin nz → ℚ) :
    (∑ c : Fin nz × Fin nr, volS pi hx hz c) = (∑ k, hz k) * (pi * cumsum hx nr ^ 2) := by
  rw [Fintype.sum_prod_type]
  have hinner : ∀ k, (∑ i : Fin nr, volS pi hx hz (k, i)) =
      hz k * (pi * cumsum hx nr ^ 2) := by
    intro k
    unfold volS vectorNxS
    dsimp only
    rw [← Finset.mul_sum]
    congr 1
    rw [← Finset.mul_sum]
    congr 1
    exact annulus_sum hx
  simp_rw [hinner]
  rw [← Finset.sum_mul]

lemma volF_sum {nr nt nz : ℕ} (hx : Fin nr → ℚ) (hy : Fin nt → ℚ) (hz : Fin nz → ℚ) :
    (∑ c : CellIdx nr nt nz, volF hx hy hz c) =
      (∑ k, hz k) * ((∑ j, hy j) * (1/2 * cumsum hx nr ^ 2)) := by
  rw [Fintype.sum_prod_type]
  have hinner : ∀ k, (∑ p : Fin nt × Fin nr, volF hx hy hz (k, p)) =
      hz k * ((∑ j, hy j) * (1/2 * cumsum hx nr ^ 2)) := by
    intro k
    rw [Fintype.sum_prod_type]
    have hinner2 : ∀ j : Fin nt, (∑ i : Fin nr, volF hx hy hz (k, j, i)) =
        hz k * (hy j * (1/2 * cumsum hx nr ^ 2)) := by
      intro j
      unfold volF vectorNxF
      dsimp only
      simp only [Fin.val_succ, Fin.coe_castSucc]
      rw [← Finset.mul_sum]
      congr 1
      rw [← Finset.mul_sum]
      congr 1
      rw [← Finset.mul_sum]
      congr 1
      exact annulus_sum hx
    simp_rw [hinner2]
    rw [← Finset.mul_sum, ← Finset.sum_mul]
  simp_rw [hinner]
  rw [← Finset.sum_mul]

/-- C6 (amended).  The total cell volume equals `pi * (R_outer^2 - 0^2) * height`
with the inner radius taken as 0 (the axis): in full mode `R_inner = vectorNx[0] = 0`
so the claim holds as stated; in symmetric mode the innermost stored node is the
first cell's outer radius, and the inner radius of the formula must be the axis 0. -/
theorem C6_total_volume :
    (∀ (nr nz : ℕ) (pi : ℚ) (hx : Fin nr → ℚ) (hz : Fin nz → ℚ) (hnr : 1 ≤ nr),
      (∑ c : Fin nz × Fin nr, volS pi hx hz c) =
        pi * (vectorNxS hx ⟨nr - 1, by omega⟩ ^ 2 - 0 ^ 2) * (∑ k, hz k)) ∧
    (∀ (nr nt nz : ℕ) (pi : ℚ) (hx : Fin nr → ℚ) (hy : Fin nt → ℚ) (hz : Fin nz → ℚ),
      (∑ j, hy j) = 2 * pi →
      (∑ c : CellIdx nr nt nz, volF hx hy hz c) =
        pi * (vectorNxF hx (Fin.last nr) ^ 2 - vectorNxF hx 0 ^ 2) * (∑ k, hz k)) := by
  constructor
  · intro nr nz pi hx hz hnr
    rw [volS_sum]
    unfold vectorNxS
    have hval : ((⟨nr - 1, by omega⟩ : Fin nr) : ℕ) + 1 = nr := by
      simp
      omega
    rw [hval]
    ring
  · intro nr nt nz pi hx hy hz hsum
    rw [volF_sum, hsum]
    unfold vectorNxF
    have h0 : cumsum hx ((0 : Fin (nr + 1)) : ℕ) = 0 := by
      simp [cumsum]
    rw [h0, Fin.val_last]
    ring

/-- Witness for C6 (amended) at concrete single-shell meshes. -/
theorem C6_witness :
    ((1 ≤ 1) ∧ (∑ c : Fin 1 × Fin 1, volS 3 (fun _ => 1) (fun _ => 1) c) =
      3 * (vectorNxS (fun _ : Fin 1 => (1 : ℚ)) ⟨0, Nat.zero_lt_one⟩ ^ 2 - 0 ^ 2) *
        (∑ k : Fin 1, (1 : ℚ))) ∧
    ((∑ j : Fin 1, (6 : ℚ)) = 2 * 3 ∧
      (∑ c : CellIdx 1 1 1, volF (fun _ => 1) (fun _ => 6) (fun _ => 1) c) =
        3 * (vectorNxF (fun _ : Fin 1 => (1 : ℚ)) (Fin.last 1) ^ 2 -
          vectorNxF (fun _ : Fin 1 => (1 : ℚ)) 0 ^ 2) * (∑ k : Fin 1, (1 : ℚ))) :=
  ⟨⟨le_refl 1, C6_total_volume.1 1 1 3 _ _ (le_refl 1)⟩,
   ⟨by norm_num, C6_total_volume.2 1 1 1 3 _ _ _ (by norm_num)⟩⟩

/-- Counterexample to C6 as stated: on the symmetric single-shell mesh
(`hx = hz = [1]`, `pi` modelled as 3) the total volume is `pi * 1 = 3`,
while `pi * (R_outer^2 - R_inner^2) * height` with `R_inner` the innermost
stored radial node coordinate (= 1 = R_outer) is 0. -/
theorem C6_counterexample :
    (∑ c : Fin 1 × Fin 1, volS 3 (fun _ : Fin 1 => 1) (fun _ : Fin 1 => 1) c) = 3 ∧
    (3 : ℚ) * (vectorNxS (fun _ : Fin 1 => (1 : ℚ)) ⟨0, Nat.zero_lt_one⟩ ^ 2 -
      vectorNxS (fun _ : Fin 1 => (1 : ℚ)) ⟨0, Nat.zero_lt_one⟩ ^ 2) *
      (∑ k : Fin 1, (1 : ℚ)) = 0 ∧
    (3 : ℚ) ≠ 0 := by
  refine ⟨?_, by ring, by norm_num⟩
  norm_num [volS, vectorNxS, cumsum, Finset.sum_range_succ]

/-! ### C7: the 5 × 4 × 3 example scenario -/

/-- C7.  The mesh with widths `([20]*5, [2π/4]*4, [20]*3)` is full 3-D
(`isSymmetric = false`), has `nNx = 6`, 60 cells, and its `faceDiv`
(of row index type `CellIdx 5 4 3`, see `faceDivFull`) has 60 rows. -/
theorem C7_example_scenario :
    isSymmetric 4 = false ∧ nNx 5 4 = 6 ∧ nC 5 4 3 = 60 ∧
    Fintype.card (CellIdx 5 4 3) = 60 := by
  refine ⟨rfl, by decide, rfl, by decide⟩

/-! ### C9: vector averaging operators (symmetric mode) -/

lemma fromBlocks_eq_fromRows {m₁ m₂ c₁ c₂ : Type}
    (A : Matrix m₁ c₁ ℚ) (B : Matrix m₁ c₂ ℚ) (C : Matrix m₂ c₁ ℚ) (D : Matrix m₂ c₂ ℚ) :
    fromBlocks A B C D = fromRows (fromColumns A B) (fromColumns C D) := by
  ext i j
  cases i <;> cases j <;>
    simp [Matrix.fromBlocks, Matrix.fromRows, Matrix.fromColumns]

lemma one_one_mul_fromBlocks {m c₁ c₂ : Type} [Fintype m] [DecidableEq m]
    (A : Matrix m c₁ ℚ) (B : Matrix m c₂ ℚ) :
    fromColumns (1 : Matrix m m ℚ) (1 : Matrix m m ℚ) * fromBlocks A 0 0 B =
      fromColumns A B := by
  rw [fromBlocks_eq_fromRows, Matrix.fromColumns_mul_fromRows, Matrix.one_mul,
    Matrix.one_mul, fromColumns_add]
  simp

/-- C9.  On a symmetric mesh the vector averaging operators are block stacks:
`aveE2CCV` is the single edge-family block (`aveE2CC` itself, row count
`1 * nC`), and `aveF2CCV` is the block-diagonal stack of the per-axis scalar
operators (row count `2 * nC`), whereas the scalar `aveF2CC` sums the two
component blocks (with weight 1/2) instead of stacking them. -/
theorem C9_vector_averaging (nr nz : ℕ) :
    aveE2CCV nr 1 nz = aveE2CC nr 1 nz ∧
    aveF2CCV nr 1 nz =
      Except.ok (fromBlocks (speye nz ⊗ₖ avR nr) 0 0 (av nz ⊗ₖ speye nr)) ∧
    aveF2CC nr 1 nz =
      Except.ok ((1/2 : ℚ) •
        (fromColumns (1 : Matrix (Fin nz × Fin nr) (Fin nz × Fin nr) ℚ) 1 *
          fromBlocks (speye nz ⊗ₖ avR nr) 0 0 (av nz ⊗ₖ speye nr))) ∧
    Fintype.card ((Fin nz × Fin nr) ⊕ (Fin nz × Fin nr)) = 2 * nC nr 1 nz ∧
    Fintype.card (Fin nz × Fin nr) = 1 * nC nr 1 nz := by
  refine ⟨rfl, rfl, ?_, ?_, ?_⟩
  · rw [one_one_mul_fromBlocks]
    rfl
  · simp [nC]; ring
  · simp [nC]; ring

/-! ### C2: construction-time validation -/

/-- C2.  Construction fails fatally when the azimuthal widths do not sum to
2π within 1e-10; fails fatally when a supplied `cartesianOrigin` does not
have length 3 (the mesh dimension); succeeds when both conditions hold, and
stores the width arrays unchanged (no silent correction). -/
theorem C2_construction (pi : ℚ) (hx hy hz : List ℚ) (x0 co : Option (List ℚ)) :
    (¬(|hy.sum - 2 * pi| < 1 / 10 ^ 10) →
      cylMeshInit pi hx hy hz x0 co = .error "The 2nd dimension must sum to 2*pi") ∧
    (∀ co', |hy.sum - 2 * pi| < 1 / 10 ^ 10 → co = some co' → co'.length ≠ 3 →
      cylMeshInit pi hx hy hz x0 co =
        .error "cartesianOrigin must be the same length as the dimension of the mesh.") ∧
    (|hy.sum - 2 * pi| < 1 / 10 ^ 10 →
      (co = none ∨ ∃ co', co = some co' ∧ co'.length = 3) →
      cylMeshInit pi hx hy hz x0 co =
        .ok ⟨hx, hy, hz, x0.getD (List.replicate 3 0), co.getD (List.replicate 3 0)⟩) := by
  refine ⟨?_, ?_, ?_⟩
  · intro hbad
    unfold cylMeshInit
    rw [if_pos hbad]
  · intro co' hgood hco hlen
    unfold cylMeshInit
    rw [if_neg (by simpa using hgood)]
    subst hco
    simp only [Option.getD_some]
    rw [if_pos hlen]
  · intro hgood hco
    unfold cylMeshInit
    rw [if_neg (by simpa using hgood)]
    rcases hco with hnone | ⟨co', hsome, hlen⟩
    · subst hnone
      simp
    · subst hsome
      simp [hlen]

/-- Witness for C2: a bad azimuthal sum is rejected, a short `cartesianOrigin`
is rejected, and a valid mesh is constructed with its widths kept. -/
theorem C2_witness :
    (¬(|([(7 : ℚ)].sum - 2 * 3)| < 1 / 10 ^ 10) ∧
      cylMeshInit 3 [1] [7] [1] none none = .error "The 2nd dimension must sum to 2*pi") ∧
    (cylMeshInit 3 [1] [6] [1] none (some [0, 0]) =
      .error "cartesianOrigin must be the same length as the dimension of the mesh.") ∧
    (cylMeshInit 3 [1] [6] [1] none none =
      .ok ⟨[1], [6], [1], List.replicate 3 0, List.replicate 3 0⟩) :=
  ⟨⟨by norm_num, (C2_construction 3 [1] [7] [1] none none).1 (by norm_num)⟩,
   (C2_construction 3 [1] [6] [1] none (some [0, 0])).2.1 [0, 0] (by norm_num) rfl
     (by norm_num),
   (C2_construction 3 [1] [6] [1] none none).2.2 (by norm_num) (Or.inl rfl)⟩

/-! ### C3: unsupported-feature accesses -/

/-- C3 (amended).  `cellGrad` and `nodalLaplacian` always raise; `nodalGrad`
raises on a non-symmetric mesh but returns Python `None` (not an error) on a
symmetric mesh; all four averaging operators raise on a non-symmetric mesh;
interpolation at `'Ex'`, `'Ez'`, `'Fy'` raises on a symmetric mesh. -/
theorem C3_unsupported_features (nr nt nz nP : ℕ) :
    cellGrad nr nt nz = .error "Cell Grad is not yet implemented." ∧
    (nt ≠ 1 → nodalGrad nr nt nz = .error "nodalGrad not yet implemented") ∧
    (nt = 1 → nodalGrad nr nt nz = .ok none) ∧
    nodalLaplacian nr nt nz = .error "nodalLaplacian not yet implemented" ∧
    (nt ≠ 1 →
      aveE2CC nr nt nz = .error "wrapping in the averaging is not yet implemented" ∧
      aveE2CCV nr nt nz = .error "wrapping in the averaging is not yet implemented" ∧
      aveF2CC nr nt nz = .error "wrapping in the averaging is not yet implemented" ∧
      aveF2CCV nr nt nz = .error "wrapping in the averaging is not yet implemented") ∧
    (∀ locType ∈ (["Ex", "Ez", "Fy"] : List String), nt = 1 →
      ∀ (zo : Bool) (Q : Matrix (Fin nP) (Fin (nC nr nt nz)) ℚ)
        (base : String → (c : ℕ) × Matrix (Fin nP) (Fin c) ℚ),
      getInterpolationMat nr nt nz nP locType zo Q base =
        .error ("Symmetric CylMesh does not support " ++ locType ++
          " interpolation, as this variable does not exist.")) := by
  have hsym : ∀ m : ℕ, m ≠ 1 → isSymmetric m = false := by
    intro m hm; simp [isSymmetric, hm]
  refine ⟨rfl, ?_, ?_, rfl, ?_, ?_⟩
  · intro hnt
    simp [nodalGrad, hsym nt hnt]
  · intro hnt
    simp [nodalGrad, hnt, isSymmetric]
  · intro hnt
    refine ⟨?_, ?_, ?_, ?_⟩ <;> simp [aveE2CC, aveE2CCV, aveF2CC, aveF2CCV, hsym nt hnt]
  · intro locType hmem hnt zo Q base
    unfold getInterpolationMat
    rw [if_pos ⟨by simp [isSymmetric, hnt], hmem⟩]

/-- Witness for C3 at concrete meshes. -/
theorem C3_witness :
    ((2 : ℕ) ≠ 1 ∧ nodalGrad 1 2 1 = .error "nodalGrad not yet implemented" ∧
      aveE2CC 1 2 1 = .error "wrapping in the averaging is not yet implemented") ∧
    ("Ex" ∈ (["Ex", "Ez", "Fy"] : List String) ∧
      getInterpolationMat 1 1 1 1 "Ex" false 0 (fun _ => ⟨0, 0⟩) =
        .error ("Symmetric CylMesh does not support " ++ "Ex" ++
          " interpolation, as this variable does not exist.")) :=
  ⟨⟨by norm_num, (C3_unsupported_features 1 2 1 1).2.1 (by norm_num),
    ((C3_unsupported_features 1 2 1 1).2.2.2.2.1 (by norm_num)).1⟩,
   ⟨by simp, (C3_unsupported_features 1 1 1 1).2.2.2.2.2 "Ex" (by simp) rfl false 0
      (fun _ => ⟨0, 0⟩)⟩⟩

/-- Counterexample to C3 as stated: on a symmetric mesh `nodalGrad` returns
Python `None` instead of raising an error. -/
theorem C3_counterexample : nodalGrad 1 1 1 = Except.ok none := rfl

/-! ### C8: per-component cell-centre vector interpolation -/

/-- C8 (amended).  For any mesh, `getInterpolationMat` with `'CCVx'` returns
`hstack([Q, Z])` (2·nC columns), with `'CCVz'` returns `hstack([Z, Q])`
(2·nC columns), and with `'CCVy'` returns `Q` alone (nC columns, no zero
blocks), where `Q` is the scalar cell-centre interpolation matrix and `Z`
the nP × nC zero block; the interpolation weights occupy exactly the
requested component's block.  (As stated the claim required
`#components × nC` columns, which fails: a full 3-D mesh has 3 components
but `'CCVx'` yields 2·nC columns, and `'CCVy'` yields nC columns.) -/
theorem C8_ccv_interpolation (nr nt nz nP : ℕ)
    (Q : Matrix (Fin nP) (Fin (nC nr nt nz)) ℚ)
    (base : String → (c : ℕ) × Matrix (Fin nP) (Fin c) ℚ) :
    getInterpolationMat nr nt nz nP "CCVx" false Q base =
      .ok ⟨nC nr nt nz + nC nr nt nz, hstackF Q 0⟩ ∧
    getInterpolationMat nr nt nz nP "CCVy" false Q base = .ok ⟨nC nr nt nz, Q⟩ ∧
    getInterpolationMat nr nt nz nP "CCVz" false Q base =
      .ok ⟨nC nr nt nz + nC nr nt nz, hstackF 0 Q⟩ := by
  refine ⟨?_, ?_, ?_⟩ <;> simp [getInterpolationMat]

/-- Counterexample to C8 as stated: on a full 3-D mesh (nCy = 4, three
vector components) with `nC = 4`, the `'CCVx'` interpolation matrix has
`8 = 2 * nC` columns, not `3 * nC = 12`. -/
theorem C8_counterexample :
    getInterpolationMat 1 4 1 1 "CCVx" false (fun _ _ => 1) (fun _ => ⟨0, 0⟩) =
      Except.ok ⟨8, hstackF (fun _ _ => (1 : ℚ) : Matrix (Fin 1) (Fin 4) ℚ)
        (0 : Matrix (Fin 1) (Fin 4) ℚ)⟩ ∧
    (8 : ℕ) ≠ 3 * nC 1 4 1 ∧ isSymmetric 4 = false := by
  refine ⟨?_, by decide, rfl⟩
  simp [getInterpolationMat]
  exact ⟨rfl, rfl⟩

/-! ### C10 / C4 / C5: deflation matrices -/

lemma removed_card (N M : ℕ) (hN : 1 ≤ N) :
    (Finset.univ.filter (fun k : Fin (N * M) => (k : ℕ) % N = 0 ∧ N ≤ (k : ℕ))).card =
      M - 1 := by
  rw [← Nat.card_Ico 1 M]
  refine Finset.card_bij' (fun k _ => (k : ℕ) / N)
    (fun m hm => ⟨m * N, ?_⟩) ?_ ?_ ?_ ?_
  · rcases Finset.mem_Ico.mp hm with ⟨h1, h2⟩
    calc m * N < M * N := Nat.mul_lt_mul_of_lt_of_le h2 (le_refl N) (by omega)
      _ = N * M := Nat.mul_comm M N
  · intro k hk
    rcases Finset.mem_filter.mp hk with ⟨-, hmod, hge⟩
    refine Finset.mem_Ico.mpr ⟨?_, ?_⟩
    · exact (Nat.one_le_div_iff (by omega)).mpr hge
    · exact Nat.div_lt_of_lt_mul k.isLt
  · intro m hm
    rcases Finset.mem_Ico.mp hm with ⟨h1, h2⟩
    refine Finset.mem_filter.mpr ⟨Finset.mem_univ _, ?_, ?_⟩
    · simp [Nat.mul_mod_left]
    · have h3 : 1 * N ≤ m * N := Nat.mul_le_mul_right N h1
      simpa using h3
  · intro k hk
    rcases Finset.mem_filter.mp hk with ⟨-, hmod, hge⟩
    apply Fin.ext
    simp only
    exact Nat.div_mul_cancel ((Nat.dvd_iff_mod_eq_zero).mpr hmod)
  · intro m hm
    simp only
    rw [Nat.mul_div_assoc _ (dvd_refl N), Nat.div_self (show 0 < N by omega),
      Nat.mul_one]

/-- The `'Ez'` keep-mask retains `nNx*nNy - (nNy - 1)` entries per layer. -/
lemma nKeepEz_eq (nr nt : ℕ) (hnt : 2 ≤ nt) :
    nKeepEz nr nt = nNx nr nt * nNy nt - (nNy nt - 1) := by
  have hN : 1 ≤ nNx nr nt := by
    have : nt ≠ 1 := by omega
    simp [nNx, isSymmetric, this]
  unfold nKeepEz keepEzSet
  have hsplit := @Finset.filter_card_add_filter_neg_card_eq_card
    (Fin (nNx nr nt * nNy nt)) Finset.univ
    (fun k => (k : ℕ) % nNx nr nt = 0 ∧ nNx nr nt ≤ (k : ℕ)) (fun _ => instDecidableAnd)
    (fun _ => instDecidableNot)
  rw [removed_card (nNx nr nt) (nNy nt) hN] at hsplit
  have hcard : (Finset.univ : Finset (Fin (nNx nr nt * nNy nt))).card =
      nNx nr nt * nNy nt := by simp
  omega

lemma mem01_mul (a b : ℚ) (ha : a = 0 ∨ a = 1) (hb : b = 0 ∨ b = 1) :
    a * b = 0 ∨ a * b = 1 := by
  rcases ha with h | h <;> rcases hb with h' | h' <;> simp [h, h']

lemma speye_mem01 (n : ℕ) (i j : Fin n) : speye n i j = 0 ∨ speye n i j = 1 := by
  simp only [speye, Matrix.one_apply]
  split_ifs <;> simp

/-- C10.  In full 3-D mode the `'Ez'` deflation matrix has `nEz` rows and
`nCz * nNx * nNy` columns; the keep-mask retains `nNx*nNy - (nNy - 1)`
node-pair entries per axial layer. -/
theorem C10_deflation_Ez (nr nt nz : ℕ) (hnt : 2 ≤ nt) :
    deflationMatrix nr nt nz "Ez" =
      .ok (some ⟨nz * nKeepEz nr nt, nz * (nNx nr nt * nNy nt),
        flatten2 (deflEz nr nt nz)⟩) ∧
    nKeepEz nr nt = nNx nr nt * nNy nt - (nNy nt - 1) ∧
    nz * nKeepEz nr nt = nEz nr nt nz ∧
    Fintype.card (Fin nz × Fin (nKeepEz nr nt)) = nEz nr nt nz := by
  have hne : nt ≠ 1 := by omega
  have hkeep := nKeepEz_eq nr nt hnt
  have hcount : nz * nKeepEz nr nt = nEz nr nt nz := by
    rw [hkeep]
    simp only [nNx, nNy, nEz, isSymmetric, beq_iff_eq, hne, if_false]
    have h1 : (nr + 1) * nt = nr * nt + nt := by ring
    have h2 : (nr + 1) * nt - (nt - 1) = nr * nt + 1 := by omega
    rw [h2]
    have h3 : (nr + 1 - 1) = nr := by omega
    rw [h3]
    ring
  refine ⟨rfl, hkeep, hcount, ?_⟩
  rw [← hcount]
  simp [mul_comm]

/-- Witness for C10 at the 1 × 2 × 1 full-mode mesh. -/
theorem C10_witness :
    (2 ≤ 2) ∧
    (deflationMatrix 1 2 1 "Ez" =
      .ok (some ⟨1 * nKeepEz 1 2, 1 * (nNx 1 2 * nNy 2), flatten2 (deflEz 1 2 1)⟩) ∧
     nKeepEz 1 2 = nNx 1 2 * nNy 2 - (nNy 2 - 1) ∧
     1 * nKeepEz 1 2 = nEz 1 2 1 ∧
     Fintype.card (Fin 1 × Fin (nKeepEz 1 2)) = nEz 1 2 1) :=
  ⟨le_refl 2, C10_deflation_Ez 1 2 1 (le_refl 2)⟩

/-- Every row of the azimuthal-face deflation has exactly one nonzero entry
(a single 1): row `(k, j, i)` hits only column `(k, j mod nt, i)`. -/
lemma deflFy_row_onehot (nr nt nz : ℕ) (hnt : 1 ≤ nt)
    (p : Fin nz × Fin (nt + 1) × Fin nr) :
    ∃! q, deflFy nr nt nz p q = 1 := by
  obtain ⟨k, j, i⟩ := p
  have huniq : ∀ (c : Fin nt), ((j : ℕ) = (c : ℕ) ∨ ((j : ℕ) = nt ∧ (c : ℕ) = 0)) →
      ∀ q : Fin nz × Fin nt × Fin nr, deflFy nr nt nz (k, j, i) q = 1 → q = (k, c, i) := by
    intro c hc q hq
    obtain ⟨k', j', i'⟩ := q
    unfold deflFy kron3 at hq
    simp only [Matrix.kroneckerMap_apply, speye, Matrix.one_apply, wrap_theta] at hq
    split_ifs at hq with h1 h2 h3 <;> try norm_num at hq
    have hj : (j' : ℕ) = (c : ℕ) := by
      have hjlt := j'.isLt
      have hclt := c.isLt
      rcases h2 with h2 | ⟨h2a, h2b⟩ <;> rcases hc with hc | ⟨hca, hcb⟩ <;> omega
    simp only [Prod.mk.injEq]
    exact ⟨h1.symm, Fin.ext hj, h3.symm⟩
  by_cases hlt : (j : ℕ) < nt
  · refine ⟨(k, ⟨(j : ℕ), hlt⟩, i), ?_, ?_⟩
    · unfold deflFy kron3
      simp [speye, Matrix.one_apply, wrap_theta]
    · intro q hq
      exact huniq ⟨(j : ℕ), hlt⟩ (Or.inl rfl) q hq
  · have hlast : (j : ℕ) = nt := by
      have := j.isLt
      omega
    refine ⟨(k, ⟨0, by omega⟩, i), ?_, ?_⟩
    · unfold deflFy kron3
      simp [speye, Matrix.one_apply, wrap_theta, hlast]
    · intro q hq
      exact huniq ⟨0, by omega⟩ (Or.inr ⟨hlast, rfl⟩) q hq

/-- Every row of the axial-edge deflation has exactly one nonzero entry
(a single 1): row `(k, r)` hits only column `(k, keep(r))`. -/
lemma deflEz_row_onehot (nr nt nz : ℕ) (p : Fin nz × Fin (nKeepEz nr nt)) :
    ∃! q, deflEz nr nt nz p q = 1 := by
  obtain ⟨k, r⟩ := p
  refine ⟨(k, (keepEzSet nr nt).orderEmbOfFin rfl r), ?_, ?_⟩
  · unfold deflEz selEz
    simp [speye, Matrix.one_apply]
  · rintro ⟨k', c⟩ hq
    unfold deflEz selEz at hq
    simp only [Matrix.kroneckerMap_apply, speye, Matrix.one_apply] at hq
    split_ifs at hq with h1 h2 <;> try norm_num at hq
    simp only [Prod.mk.injEq]
    exact ⟨h1.symm, h2⟩

/-- C4 (amended).  The deflation matrices actually produced have entries in
{0,1}; `'Fx'` and `'Fy'` are oriented ungapped-rows × reduced-columns (the
transpose of the claim's convention) with every column containing a 1, the
`'Fx'` rows at the innermost (axis) radial index being zero rows while every
`'Fy'` row is one-hot (exactly one 1); `'Fz'` is the identity; `'Ez'` is
oriented reduced-rows × ungapped-columns with every row one-hot (exactly one
1); the recognized tags `'N'`, `'F'`, `'E'`, `'Ex'`, `'Ey'` produce no matrix
(Python `None`). -/
theorem C4_deflation_properties (nr nt nz : ℕ) :
    (∀ p q, deflFx nr nt nz p q = 0 ∨ deflFx nr nt nz p q = 1) ∧
    Fintype.card (Fin nz × Fin nt × Fin (nr + 1)) = nz * (nt * (nr + 1)) ∧
    Fintype.card (CellIdx nr nt nz) = nFx nr nt nz ∧
    (∀ q : CellIdx nr nt nz, deflFx nr nt nz (q.1, q.2.1, q.2.2.succ) q = 1) ∧
    (∀ p : Fin nz × Fin nt × Fin (nr + 1), (p.2.2 : ℕ) = 0 →
      ∀ q, deflFx nr nt nz p q = 0) ∧
    (∀ p q, deflFy nr nt nz p q = 0 ∨ deflFy nr nt nz p q = 1) ∧
    (∀ q : CellIdx nr nt nz, deflFy nr nt nz (q.1, q.2.1.castSucc, q.2.2) q = 1) ∧
    (1 ≤ nt → ∀ p : Fin nz × Fin (nt + 1) × Fin nr,
      ∃! q, deflFy nr nt nz p q = 1) ∧
    deflationMatrix nr nt nz "Fz" =
      .ok (some ⟨(nz + 1) * (nt * nr), (nz + 1) * (nt * nr),
        (1 : Matrix (Fin ((nz + 1) * (nt * nr))) (Fin ((nz + 1) * (nt * nr))) ℚ)⟩) ∧
    (∀ p q, deflEz nr nt nz p q = 0 ∨ deflEz nr nt nz p q = 1) ∧
    (∀ p : Fin nz × Fin (nKeepEz nr nt), ∃! q, deflEz nr nt nz p q = 1) ∧
    Fintype.card (Fin nz × Fin (nKeepEz nr nt)) = nz * nKeepEz nr nt ∧
    Fintype.card (Fin nz × Fin (nNx nr nt * nNy nt)) = nz * (nNx nr nt * nNy nt) ∧
    (∀ tag ∈ (["N", "F", "E", "Ex", "Ey"] : List String),
      deflationMatrix nr nt nz tag = .ok none) := by
  refine ⟨?_, by simp [mul_comm], ?_, ?_, ?_, ?_, ?_,
    deflFy_row_onehot nr nt nz, rfl, ?_, deflEz_row_onehot nr nt nz,
    by simp, by simp, ?_⟩
  · intro p q
    unfold deflFx kron3
    simp only [Matrix.kroneckerMap_apply]
    refine mem01_mul _ _ (speye_mem01 _ _ _) (mem01_mul _ _ (speye_mem01 _ _ _) ?_)
    unfold collapse_x
    split_ifs <;> simp
  · simp [nFx]; ring
  · intro q
    unfold deflFx kron3
    simp [speye, Matrix.one_apply, collapse_x]
  · intro p hp q
    unfold deflFx kron3
    simp only [Matrix.kroneckerMap_apply]
    have : collapse_x nr p.2.2 q.2.2 = 0 := by
      unfold collapse_x
      rw [if_neg]
      omega
    rw [this]
    ring
  · intro p q
    unfold deflFy kron3
    simp only [Matrix.kroneckerMap_apply]
    refine mem01_mul _ _ (speye_mem01 _ _ _) (mem01_mul _ _ ?_ (speye_mem01 _ _ _))
    unfold wrap_theta
    split_ifs <;> simp
  · intro q
    unfold deflFy kron3
    simp [speye, Matrix.one_apply, wrap_theta]
  · intro p q
    unfold deflEz
    simp only [Matrix.kroneckerMap_apply]
    refine mem01_mul _ _ (speye_mem01 _ _ _) ?_
    unfold selEz
    split_ifs <;> simp
  · intro tag hmem
    fin_cases hmem <;> rfl

/-- Witness for C4 at the 1 × 2 × 1 mesh, discharging the hypotheses of the
conditional conjuncts at concrete indices. -/
theorem C4_witness :
    ((1 : ℕ) ≤ 2 ∧
      (∃! q, deflFy 1 2 1 (0, (2 : Fin 3), 0) q = 1)) ∧
    ("N" ∈ (["N", "F", "E", "Ex", "Ey"] : List String) ∧
      deflationMatrix 1 2 1 "N" = .ok none) ∧
    deflFx 1 2 1 (0, 0, (0 : Fin 2).succ) (0, 0, 0) = 1 ∧
    deflFy 1 2 1 ((0 : Fin 1), (0 : Fin 2).castSucc, (0 : Fin 1)) (0, 0, 0) = 1 :=
  ⟨⟨by norm_num, (C4_deflation_properties 1 2 1).2.2.2.2.2.2.2.1 (by norm_num)
      (0, (2 : Fin 3), 0)⟩,
   ⟨by simp,
    (C4_deflation_properties 1 2 1).2.2.2.2.2.2.2.2.2.2.2.2.2 "N" (by simp)⟩,
   (C4_deflation_properties 1 2 1).2.2.2.1 (0, 0, 0),
   (C4_deflation_properties 1 2 1).2.2.2.2.2.2.1 (0, 0, 0)⟩

/-- Counterexample to C4 as stated: for the recognized tag `'Fx'` on the
1 × 1 × 1 mesh, the produced matrix has 2 rows (the ungapped count) while the
reduced radial-face DOF count `nFx` is 1, and its axis row `(0,0,0)` is
entirely zero (its only entry vanishes); moreover the recognized tag `'N'`
produces no matrix at all. -/
theorem C4_counterexample :
    Fintype.card (Fin 1 × Fin 1 × Fin 2) = 2 ∧ nFx 1 1 1 = 1 ∧ (2 : ℕ) ≠ 1 ∧
    deflFx 1 1 1 ((0 : Fin 1), (0 : Fin 1), (0 : Fin 2)) ((0 : Fin 1), (0 : Fin 1), (0 : Fin 1)) = 0 ∧
    deflationMatrix 1 1 1 "N" = .ok none := by
  refine ⟨by decide, rfl, by decide, ?_, rfl⟩
  unfold deflFx kron3
  simp [speye, Matrix.one_apply, collapse_x]

/-- C5 (amended).  `_deflationMatrix(tag)` returns a sparse matrix only for
the tags `'Fx'`, `'Fy'`, `'Fz'`, `'Ez'`; for the remaining recognized tags
`'N'`, `'F'`, `'E'`, `'Ex'`, `'Ey'` it returns Python `None`; an
unrecognized tag trips the bare `assert` — an `AssertionError` that carries
no message and so does not name the offending tag.  The function is pure, so
two calls with the same tag return identical results (the source does not in
fact cache these matrices). -/
theorem C5_deflation_dispatch (nr nt nz : ℕ) (tag : String) :
    (tag = "Fx" → deflationMatrix nr nt nz tag =
      .ok (some ⟨nz * (nt * (nr + 1)), nz * (nt * nr), flatten3 (deflFx nr nt nz)⟩)) ∧
    (tag = "Fy" → deflationMatrix nr nt nz tag =
      .ok (some ⟨nz * ((nt + 1) * nr), nz * (nt * nr), flatten3 (deflFy nr nt nz)⟩)) ∧
    (tag = "Fz" → deflationMatrix nr nt nz tag =
      .ok (some ⟨(nz + 1) * (nt * nr), (nz + 1) * (nt * nr), speye ((nz + 1) * (nt * nr))⟩)) ∧
    (tag = "Ez" → deflationMatrix nr nt nz tag =
      .ok (some ⟨nz * nKeepEz nr nt, nz * (nNx nr nt * nNy nt), flatten2 (deflEz nr nt nz)⟩)) ∧
    (tag ∈ (["N", "F", "E", "Ex", "Ey"] : List String) →
      deflationMatrix nr nt nz tag = .ok none) ∧
    (tag ∉ (["N", "F", "Fx", "Fy", "E", "Ex", "Ey", "Fz", "Ez"] : List String) →
      deflationMatrix nr nt nz tag = .error "AssertionError") := by
  refine ⟨?_, ?_, ?_, ?_, ?_, ?_⟩
  · rintro rfl; rfl
  · rintro rfl; rfl
  · rintro rfl; rfl
  · rintro rfl; rfl
  · intro hmem
    fin_cases hmem <;> rfl
  · intro hmem
    unfold deflationMatrix
    rw [if_neg hmem]

/-- Witness for C5 at concrete tags: a matrix tag, a `None` tag and an
unrecognized tag. -/
theorem C5_witness :
    (deflationMatrix 1 1 1 "Fx" =
      .ok (some ⟨1 * (1 * (1 + 1)), 1 * (1 * 1), flatten3 (deflFx 1 1 1)⟩)) ∧
    ("Ey" ∈ (["N", "F", "E", "Ex", "Ey"] : List String) ∧
      deflationMatrix 1 1 1 "Ey" = .ok none) ∧
    ("bogus" ∉ (["N", "F", "Fx", "Fy", "E", "Ex", "Ey", "Fz", "Ez"] : List String) ∧
      deflationMatrix 1 1 1 "bogus" = .error "AssertionError") :=
  ⟨(C5_deflation_dispatch 1 1 1 "Fx").1 rfl,
   ⟨by simp, (C5_deflation_dispatch 1 1 1 "Ey").2.2.2.2.1 (by simp)⟩,
   ⟨by simp, (C5_deflation_dispatch 1 1 1 "bogus").2.2.2.2.2 (by simp)⟩⟩

/-- Counterexample to C5 as stated: `'N'` is a recognized tag but the method
returns Python `None` rather than a sparse matrix. -/
theorem C5_counterexample :
    "N" ∈ (["N", "F", "Fx", "Fy", "E", "Ex", "Ey", "Fz", "Ez"] : List String) ∧
    deflationMatrix 2 3 4 "N" = .ok none :=
  ⟨by simp, rfl⟩
